import Mathlib

/-!
Verification of `src/main.py` of the rolling-hashset repository.

Python strings are modelled as `List Char` (`Str`). Python's built-in
`hash` on strings is an opaque (per-process seeded) function; it is
modelled as an explicit parameter `h : Str → Int` so that statements can
quantify over it, place collision-freedom hypotheses on it, or
instantiate it with an adversarial or an injective function.

Python's truncated integer arithmetic point: `range(len(main_str) - k + 1)`
has `len(main_str) - k + 1` elements when that quantity is positive and is
empty otherwise; since `k ≥ 1` throughout, `List.range (main_str.length
+ 1 - k)` with ℕ-truncated subtraction produces exactly the same index
list.
-/

abbrev Str := List Char

/-- Models Python's substring containment test `sub in main_str`
(src/main.py line 6): true exactly when some offset `i` of `main_str`
carries the characters of `sub`; the empty string is found at offset 0
of any string. -/
def py_contains (sub main_str : Str) : Bool :=
  (List.range (main_str.length + 1)).any fun i =>
    decide ((main_str.drop i).take sub.length = sub)

/-- src/main.py lines 4-7: `brute_force_search` keeps, in order, the
patterns `s` with `s in main_str`. -/
def brute_force_search (main_str : Str) (substrings : List Str) : List Str :=
  substrings.filter fun s => py_contains s main_str

/-- The substrings visited by the double loop of `create_substring_hashes`
(src/main.py lines 12-14): slices `main_str[i:i+k]` for `k` in
`range(1, max_len + 1)` and `i` in `range(len(main_str) - k + 1)`. -/
def enumeratedSubstrings (main_str : Str) (max_len : Nat) : List Str :=
  (List.range' 1 max_len).flatMap fun k =>
    (List.range (main_str.length + 1 - k)).map fun i =>
      (main_str.drop i).take k

/-- src/main.py lines 9-15: `create_substring_hashes` inserts
`hash(main_str[i:i+k])` into a set over the double loop; the resulting
set is the image of the enumerated slices under `h`, with duplicates
collapsed by the set container. -/
def create_substring_hashes (h : Str → Int) (main_str : Str) (max_len : Nat) : Finset Int :=
  ((enumeratedSubstrings main_str max_len).map h).toFinset

/-- src/main.py line 20: `max(len(s) for s in substrings) if substrings
else 0`. Python's `max` over a nonempty sequence folds binary max over
the head and tail. -/
def maxLenOf (substrings : List Str) : Nat :=
  match substrings with
  | [] => 0
  | s :: rest => rest.foldl (fun m x => Nat.max m x.length) s.length

/-- src/main.py lines 17-32: `rolling_hash_search` computes `max_len`
(guarded for the empty list), builds the fingerprint set, then appends
each pattern whose fingerprint is in the set to the result list. -/
def rolling_hash_search (h : Str → Int) (main_str : Str) (substrings : List Str) : List Str :=
  let main_str_hashes := create_substring_hashes h main_str (maxLenOf substrings)
  substrings.foldl (fun result s => if h s ∈ main_str_hashes then result ++ [s] else result) []

/-- `sub` occurs as a contiguous substring of `main_str`: the
mathematical ground truth the spec's Direct Scan contract refers to. -/
def IsSubstring (sub main_str : Str) : Prop :=
  ∃ l r, main_str = l ++ sub ++ r

/-- No fingerprint collisions among the pattern strings and the
enumerated substrings of the text: `h` is injective on their union.
This is the spec's "no fingerprint collisions" side condition. -/
def no_collisions (h : Str → Int) (main_str : Str) (substrings : List Str) : Prop :=
  ∀ x ∈ substrings ++ enumeratedSubstrings main_str (maxLenOf substrings),
    ∀ y ∈ substrings ++ enumeratedSubstrings main_str (maxLenOf substrings),
      h x = h y → x = y

/-- A concrete collision-free fingerprint function usable as a stand-in
for Python's `hash`: the base-128 positional code of the character
codes shifted by one (injective on strings over characters below
code 127, which covers all strings appearing in the examples). -/
def strCode (s : Str) : Int :=
  Int.ofNat (s.foldl (fun a c => a * 128 + (c.toNat + 1)) 0)

/-- src/main.py lines 42-105: `analyze_time_complexity`, modelled only
for its exception behavior (timing values and printing cannot raise and
are omitted). `none` marks exactly the inputs where the Python raises
on its own: `iterations = 0` makes `sum(brute_times)/len(brute_times)`
at line 62 divide by zero, and an empty `substrings` makes the unguarded
`max(len(s) for s in substrings)` at line 93 raise ValueError. On all
other inputs every operation of the harness (timing both strategies,
float statistics over nonempty lists, printing) completes. -/
def analyze_time_complexity (h : Str → Int) (main_str : Str) (substrings : List Str)
    (iterations : Nat) : Option Unit :=
  if iterations = 0 then none
  else
    match substrings with
    | [] => none
    | _ :: _ =>
      let _ := brute_force_search main_str substrings
      let _ := rolling_hash_search h main_str substrings
      some ()

/-! ### Basic lemmas about the embedding -/

/-- Any slice `main_str[i:i+k]` is a contiguous substring. -/
lemma slice_isSubstring (t : Str) (i n : Nat) : IsSubstring ((t.drop i).take n) t := by
  refine ⟨t.take i, (t.drop i).drop n, ?_⟩
  rw [List.append_assoc, List.take_append_drop, List.take_append_drop]

/-- `IsSubstring` in slice form: an occurrence at offset `i` fitting in
the text. -/
lemma isSubstring_iff_slice (s t : Str) :
    IsSubstring s t ↔ ∃ i, i + s.length ≤ t.length ∧ (t.drop i).take s.length = s := by
  constructor
  · rintro ⟨l, r, rfl⟩
    refine ⟨l.length, ?_, ?_⟩
    · simp
    · rw [List.append_assoc, List.drop_left, List.take_left]
  · rintro ⟨i, _, hs⟩
    rw [← hs]
    exact slice_isSubstring t i s.length

/-- A contiguous substring is no longer than the text. -/
lemma isSubstring_length_le {s t : Str} (hs : IsSubstring s t) : s.length ≤ t.length := by
  rcases hs with ⟨l, r, rfl⟩
  simp; omega

/-- `py_contains` agrees with mathematical substring containment. -/
lemma py_contains_iff (s t : Str) : py_contains s t = true ↔ IsSubstring s t := by
  unfold py_contains
  rw [List.any_eq_true]
  constructor
  · rintro ⟨i, _, hdec⟩
    rw [decide_eq_true_iff] at hdec
    rw [← hdec]
    exact slice_isSubstring t i s.length
  · intro hs
    rcases (isSubstring_iff_slice s t).mp hs with ⟨i, hle, hsl⟩
    refine ⟨i, ?_, by rw [decide_eq_true_iff]; exact hsl⟩
    rw [List.mem_range]
    omega

instance (s t : Str) : Decidable (IsSubstring s t) :=
  decidable_of_iff (py_contains s t = true) (py_contains_iff s t)

/-- Membership in the enumerated-slices list. -/
lemma mem_enumeratedSubstrings (t : Str) (m : Nat) (s : Str) :
    s ∈ enumeratedSubstrings t m ↔
      ∃ k, 1 ≤ k ∧ k ≤ m ∧ ∃ i, i + k ≤ t.length ∧ (t.drop i).take k = s := by
  unfold enumeratedSubstrings
  rw [List.mem_flatMap]
  constructor
  · rintro ⟨k, hk, hs⟩
    rw [List.mem_range'_1] at hk
    rw [List.mem_map] at hs
    rcases hs with ⟨i, hi, rfl⟩
    rw [List.mem_range] at hi
    exact ⟨k, by omega, by omega, i, by omega, rfl⟩
  · rintro ⟨k, hk1, hkm, i, hik, rfl⟩
    refine ⟨k, ?_, ?_⟩
    · rw [List.mem_range'_1]; omega
    · rw [List.mem_map]
      exact ⟨i, by rw [List.mem_range]; omega, rfl⟩

/-- Membership in the fingerprint set. -/
lemma mem_create_substring_hashes (h : Str → Int) (t : Str) (m : Nat) (x : Int) :
    x ∈ create_substring_hashes h t m ↔
      ∃ s ∈ enumeratedSubstrings t m, h s = x := by
  unfold create_substring_hashes
  rw [List.mem_toFinset, List.mem_map]

lemma le_foldl_max (l : List Str) (a : Nat) :
    a ≤ l.foldl (fun m x => Nat.max m x.length) a := by
  induction l generalizing a with
  | nil => simp
  | cons x xs ih => exact le_trans (Nat.le_max_left a x.length) (ih _)

lemma mem_le_foldl_max (l : List Str) (a : Nat) :
    ∀ s ∈ l, s.length ≤ l.foldl (fun m x => Nat.max m x.length) a := by
  induction l generalizing a with
  | nil => simp
  | cons x xs ih =>
    intro s hs
    rcases List.mem_cons.mp hs with rfl | hs
    · exact le_trans (Nat.le_max_right a s.length) (le_foldl_max xs _)
    · exact ih _ s hs

/-- Every pattern in the list is no longer than `maxLenOf`. -/
lemma length_le_maxLenOf {ps : List Str} {s : Str} (hs : s ∈ ps) : s.length ≤ maxLenOf ps := by
  cases ps with
  | nil => cases hs
  | cons p rest =>
    unfold maxLenOf
    rcases List.mem_cons.mp hs with rfl | hs
    · exact le_foldl_max rest s.length
    · exact mem_le_foldl_max rest p.length s hs

lemma foldl_append_ite (q : Str → Prop) [DecidablePred q] (l : List Str) (acc : List Str) :
    l.foldl (fun r s => if q s then r ++ [s] else r) acc
      = acc ++ l.filter fun s => decide (q s) := by
  induction l generalizing acc with
  | nil => simp
  | cons x xs ih =>
    by_cases hx : q x
    · simp only [List.foldl_cons, if_pos hx, ih, List.filter_cons,
        decide_eq_true hx, if_pos trivial]
      simp
    · simp only [List.foldl_cons, if_neg hx, ih, List.filter_cons]
      simp [hx]

/-- The accumulation loop of `rolling_hash_search` is a filter by
fingerprint-set membership. -/
lemma rolling_hash_search_eq_filter (h : Str → Int) (t : Str) (ps : List Str) :
    rolling_hash_search h t ps
      = ps.filter fun s => decide (h s ∈ create_substring_hashes h t (maxLenOf ps)) := by
  unfold rolling_hash_search
  rw [foldl_append_ite]
  simp

/-- Membership in the rolling-hash result. -/
lemma mem_rolling_hash_search (h : Str → Int) (t : Str) (ps : List Str) (p : Str) :
    p ∈ rolling_hash_search h t ps ↔
      p ∈ ps ∧ h p ∈ create_substring_hashes h t (maxLenOf ps) := by
  rw [rolling_hash_search_eq_filter, List.mem_filter, decide_eq_true_iff]

/-- Membership in the brute-force result. -/
lemma mem_brute_force_search (t : Str) (ps : List Str) (p : Str) :
    p ∈ brute_force_search t ps ↔ p ∈ ps ∧ IsSubstring p t := by
  unfold brute_force_search
  rw [List.mem_filter, py_contains_iff]

/-- A pattern that is a nonempty contiguous substring of the text is
always kept by the rolling-hash scan, for every fingerprint function:
its own window length is enumerated. -/
lemma mem_rolling_of_isSubstring (h : Str → Int) {t : Str} {ps : List Str} {p : Str}
    (hp : p ∈ ps) (hne : p ≠ []) (hsub : IsSubstring p t) :
    p ∈ rolling_hash_search h t ps := by
  rw [mem_rolling_hash_search]
  refine ⟨hp, ?_⟩
  rw [mem_create_substring_hashes]
  rcases (isSubstring_iff_slice p t).mp hsub with ⟨i, hle, hslice⟩
  refine ⟨p, ?_, rfl⟩
  rw [mem_enumeratedSubstrings]
  have hlen : 1 ≤ p.length := by
    cases p with
    | nil => exact absurd rfl hne
    | cons a l => simp
  exact ⟨p.length, hlen, length_le_maxLenOf hp, i, hle, hslice⟩

/-- With no fingerprint collisions and no empty pattern, the rolling-hash
result and the brute-force result have the same members. -/
lemma rolling_iff_brute (h : Str → Int) (t : Str) (ps : List Str)
    (hne : ∀ p ∈ ps, p ≠ []) (hnc : no_collisions h t ps) (s : Str) :
    s ∈ rolling_hash_search h t ps ↔ s ∈ brute_force_search t ps := by
  constructor
  · intro hmem
    rcases (mem_rolling_hash_search h t ps s).mp hmem with ⟨hsps, hc⟩
    rcases (mem_create_substring_hashes h t (maxLenOf ps) (h s)).mp hc with ⟨u, hu, huh⟩
    have hsu : s = u :=
      hnc s (List.mem_append_left _ hsps) u (List.mem_append_right _ hu) huh.symm
    rw [← hsu] at hu
    rcases (mem_enumeratedSubstrings t (maxLenOf ps) s).mp hu with ⟨k, _, _, i, _, hslice⟩
    rw [mem_brute_force_search]
    exact ⟨hsps, by rw [← hslice]; exact slice_isSubstring t i k⟩
  · intro hmem
    rcases (mem_brute_force_search t ps s).mp hmem with ⟨hsps, hsub⟩
    exact mem_rolling_of_isSubstring h hsps (hne s hsps) hsub

lemma enumeratedSubstrings_nil (m : Nat) : enumeratedSubstrings [] m = [] := by
  rw [List.eq_nil_iff_forall_not_mem]
  intro s hs
  rcases (mem_enumeratedSubstrings [] m s).mp hs with ⟨k, hk1, _, i, hik, _⟩
  simp at hik
  omega

/-- Claim C4's spec-side matching predicate, taken from the spec's own
words: the pattern's fingerprint equals the fingerprint of some
enumerated substring of the text whose length is at most the pattern's
own length. -/
def fingerprint_match_within_own_length (h : Str → Int) (main_str p : Str) : Prop :=
  ∃ s ∈ enumeratedSubstrings main_str p.length, h s = h p

/-- A fingerprint function with one deliberate cross-length collision:
the one-character pattern "a" and the two-character window "cd" share a
fingerprint; everything else is coded injectively. -/
def h4 (s : Str) : Int :=
  if s = ['a'] then 9 else if s = ['c','d'] then 9 else strCode s

/-- The concrete scenario text of src/main.py line 109. -/
def T9 : Str := "hellotherehowareyou".data

/-- The concrete scenario pattern list of src/main.py line 110. -/
def PS9 : List Str :=
  ["hello".data, "there".data, "how".data, "are".data, "you".data,
   "test".data, "youare".data, "hellothere".data]

/-! ### Claim theorems -/

/-- Claim C1: for every text and pattern list, `brute_force_search`
returns exactly the patterns that occur as a contiguous substring of the
text, as an order-preserving subsequence with duplicates kept; in
particular an empty pattern is always included. -/
theorem brute_force_search_exact (t : Str) (ps : List Str) :
    brute_force_search t ps = ps.filter (fun s => decide (IsSubstring s t)) ∧
      ([] ∈ ps → [] ∈ brute_force_search t ps) := by
  constructor
  · unfold brute_force_search
    refine List.filter_congr ?_
    intro s _
    by_cases hI : IsSubstring s t
    · rw [(py_contains_iff s t).mpr hI, decide_eq_true hI]
    · rw [decide_eq_false hI]
      rw [← Bool.not_eq_true, py_contains_iff]
      exact hI
  · intro hps
    rw [mem_brute_force_search]
    exact ⟨hps, [], t, rfl⟩

theorem brute_force_search_exact_witness :
    [] ∈ brute_force_search ['a'] [[]] :=
  (brute_force_search_exact ['a'] [[]]).2 (by decide)

/-- Claim C2 counterexample: with the pattern list `[""]` and text `"a"`
the no-collision condition holds vacuously (no substring window is
enumerated since `max_len = 0`), yet brute force keeps the empty pattern
while the rolling-hash scan drops it, so the two result sets differ. -/
theorem rolling_vs_brute_empty_pattern_cex :
    no_collisions (fun _ => (0 : Int)) ['a'] [[]] ∧
      [] ∈ brute_force_search ['a'] [[]] ∧
      [] ∉ rolling_hash_search (fun _ => (0 : Int)) ['a'] [[]] := by
  unfold no_collisions
  exact ⟨by decide, by decide, by decide⟩

/-- Claim C2 (amended): when additionally every pattern is nonempty,
no fingerprint collisions imply that the rolling-hash result and the
brute-force result are equal as sets. -/
theorem rolling_matches_brute_no_collisions (h : Str → Int) (t : Str) (ps : List Str)
    (hne : ∀ p ∈ ps, p ≠ []) (hnc : no_collisions h t ps) (s : Str) :
    s ∈ rolling_hash_search h t ps ↔ s ∈ brute_force_search t ps :=
  rolling_iff_brute h t ps hne hnc s

theorem rolling_matches_brute_no_collisions_witness :
    (['a'] ∈ rolling_hash_search strCode ['a', 'b'] [['a'], ['c']]) ↔
      (['a'] ∈ brute_force_search ['a', 'b'] [['a'], ['c']]) :=
  rolling_matches_brute_no_collisions strCode ['a', 'b'] [['a'], ['c']]
    (by decide) (by unfold no_collisions; decide) ['a']

/-- Claim C3 counterexample: the empty pattern occurs in every text, yet
the scan enumerates only window lengths at least 1 (and here `max_len =
0`), so the rolling-hash result omits it: a false negative. -/
theorem rolling_drops_empty_pattern_cex :
    IsSubstring [] ['a'] ∧ [] ∈ ([[]] : List Str) ∧
      [] ∉ rolling_hash_search strCode ['a'] [[]] := by
  exact ⟨by decide, by decide, by decide⟩

/-- Claim C3 (amended): for every fingerprint function, every nonempty
pattern that occurs as a contiguous substring of the text is in the
rolling-hash result: no false negatives on nonempty patterns. -/
theorem rolling_no_false_negatives_nonempty (h : Str → Int) (t : Str) (ps : List Str)
    (p : Str) (hp : p ∈ ps) (hne : p ≠ []) (hsub : IsSubstring p t) :
    p ∈ rolling_hash_search h t ps :=
  mem_rolling_of_isSubstring h hp hne hsub

theorem rolling_no_false_negatives_nonempty_witness :
    ['a'] ∈ rolling_hash_search strCode ['a'] [['a']] :=
  rolling_no_false_negatives_nonempty strCode ['a'] [['a']] ['a']
    (by decide) (by decide) ⟨[], [], rfl⟩

/-- Claim C4 counterexample: under `h4` the pattern "a" is kept by
`rolling_hash_search` on text "cd" because its fingerprint matches the
window "cd" of length 2, yet no window of length at most the pattern's
own length (1) has a matching fingerprint. -/
theorem rolling_window_beyond_own_length_cex :
    ['a'] ∈ rolling_hash_search h4 ['c', 'd'] [['a'], ['b', 'b']] ∧
      ¬ fingerprint_match_within_own_length h4 ['c', 'd'] ['a'] := by
  unfold fingerprint_match_within_own_length
  exact ⟨by decide, by decide⟩

/-- Claim C4 (amended): `rolling_hash_search` returns the order-preserving
subsequence of the patterns whose fingerprint matches the fingerprint of
some substring of the text of length between 1 and the maximum pattern
length (not merely up to each pattern's own length). -/
theorem rolling_filters_by_window_up_to_max_len (h : Str → Int) (t : Str) (ps : List Str) :
    rolling_hash_search h t ps
      = ps.filter fun p =>
          decide (∃ s ∈ enumeratedSubstrings t (maxLenOf ps), h s = h p) := by
  rw [rolling_hash_search_eq_filter]
  refine List.filter_congr ?_
  intro p _
  exact decide_eq_decide.mpr (mem_create_substring_hashes h t (maxLenOf ps) (h p))

/-- Claim C5: the fingerprint set is exactly the set of fingerprints of
the substrings of the text of each length from 1 to `max_len` at each
valid offset, each contributing once (the container is a set). -/
theorem create_substring_hashes_exact (h : Str → Int) (t : Str) (m : Nat) (x : Int) :
    x ∈ create_substring_hashes h t m ↔
      ∃ k, 1 ≤ k ∧ k ≤ m ∧ ∃ i, i + k ≤ t.length ∧ h ((t.drop i).take k) = x := by
  rw [mem_create_substring_hashes]
  constructor
  · rintro ⟨s, hs, rfl⟩
    rcases (mem_enumeratedSubstrings t m s).mp hs with ⟨k, hk1, hkm, i, hik, rfl⟩
    exact ⟨k, hk1, hkm, i, hik, rfl⟩
  · rintro ⟨k, hk1, hkm, i, hik, rfl⟩
    exact ⟨(t.drop i).take k,
      (mem_enumeratedSubstrings t m _).mpr ⟨k, hk1, hkm, i, hik, rfl⟩, rfl⟩

/-- Claim C6: on an empty pattern list both strategies return an empty
result and nothing raises: the max-of-empty guard yields `max_len = 0`,
under which zero fingerprints are generated. -/
theorem empty_pattern_list_behavior (h : Str → Int) (t : Str) :
    brute_force_search t [] = [] ∧ maxLenOf [] = 0 ∧
      create_substring_hashes h t 0 = ∅ ∧ rolling_hash_search h t [] = [] := by
  refine ⟨rfl, rfl, ?_, rfl⟩
  unfold create_substring_hashes enumeratedSubstrings
  simp

/-- Claim C7 counterexample: under a constant fingerprint function, the
pattern "ab" (longer than the text "a") collides with the window "a" and
is kept by `rolling_hash_search`, so too-long patterns are not
unconditionally excluded from the rolling-hash result. -/
theorem long_pattern_collision_cex :
    (['a', 'b'] : Str).length > (['a'] : Str).length ∧
      ['a', 'b'] ∈ rolling_hash_search (fun _ => (0 : Int)) ['a'] [['a', 'b']] := by
  exact ⟨by decide, by decide⟩

/-- Claim C7 (amended): a pattern longer than the text is always excluded
from the brute-force result, and is excluded from the rolling-hash result
provided its fingerprint collides with no enumerated substring
fingerprint. -/
theorem long_pattern_excluded (h : Str → Int) (t : Str) (ps : List Str) (p : Str)
    (hlong : t.length < p.length) :
    p ∉ brute_force_search t ps ∧
      (no_collisions h t ps → p ∉ rolling_hash_search h t ps) := by
  constructor
  · intro hmem
    have := isSubstring_length_le ((mem_brute_force_search t ps p).mp hmem).2
    omega
  · intro hnc hmem
    rcases (mem_rolling_hash_search h t ps p).mp hmem with ⟨hps, hc⟩
    rcases (mem_create_substring_hashes h t (maxLenOf ps) (h p)).mp hc with ⟨u, hu, huh⟩
    have hpu : p = u :=
      hnc p (List.mem_append_left _ hps) u (List.mem_append_right _ hu) huh.symm
    rw [← hpu] at hu
    rcases (mem_enumeratedSubstrings t (maxLenOf ps) p).mp hu with ⟨k, _, _, i, hik, hslice⟩
    have hlen : p.length ≤ k := by
      rw [← hslice, List.length_take]
      exact Nat.min_le_left _ _
    omega

theorem long_pattern_excluded_witness :
    ['a', 'b'] ∉ rolling_hash_search strCode ['a'] [['a', 'b']] :=
  (long_pattern_excluded strCode ['a'] [['a', 'b']] ['a', 'b'] (by decide)).2
    (by unfold no_collisions; decide)

/-- Claim C8 counterexample: on an empty pattern list both strategies
complete (returning empty results), yet the harness itself raises: line
93 evaluates `max(len(s) for s in substrings)` without the guard used at
line 20, a ValueError of the harness's own making. -/
theorem harness_empty_patterns_cex :
    brute_force_search ['a'] [] = [] ∧
      rolling_hash_search strCode ['a'] [] = [] ∧
      analyze_time_complexity strCode ['a'] [] 1000 = none := by
  exact ⟨by decide, by decide, by decide⟩

/-- Claim C8 (amended): for every text, every nonempty pattern list and
every positive iteration count the harness completes without raising;
its own failure modes are exactly the empty pattern list (unguarded max
at line 93) and a zero iteration count (division by `len(brute_times)`). -/
theorem harness_completes_nonempty (h : Str → Int) (t : Str) (ps : List Str) (n : Nat)
    (hps : ps ≠ []) (hn : n ≠ 0) :
    analyze_time_complexity h t ps n = some () := by
  unfold analyze_time_complexity
  rw [if_neg hn]
  cases ps with
  | nil => exact absurd rfl hps
  | cons a l => rfl

theorem harness_completes_nonempty_witness :
    analyze_time_complexity strCode ['a'] [['a']] 1000 = some () :=
  harness_completes_nonempty strCode ['a'] [['a']] 1000 (by decide) (by decide)

/-- Claim C9 counterexample: on the scenario input the brute-force result
is not the spec's expected list, because the pattern "hellothere" is a
contiguous substring of "hellotherehowareyou" (its first ten characters)
and is therefore also included. -/
theorem scenario_expected_output_cex :
    brute_force_search T9 PS9 ≠
        ["hello".data, "there".data, "how".data, "are".data, "you".data] ∧
      "hellothere".data ∈ brute_force_search T9 PS9 := by
  exact ⟨by decide, by decide⟩

/-- Claim C9 (amended): on the scenario input the brute-force result is
`["hello","there","how","are","you","hellothere"]`, and whenever the
fingerprint function has no collisions on this input the rolling-hash
result has exactly the same members. -/
theorem scenario_output :
    brute_force_search T9 PS9 =
        ["hello".data, "there".data, "how".data, "are".data, "you".data,
         "hellothere".data] ∧
      ∀ h : Str → Int, no_collisions h T9 PS9 → ∀ s : Str,
        (s ∈ rolling_hash_search h T9 PS9 ↔ s ∈ brute_force_search T9 PS9) := by
  refine ⟨by decide, ?_⟩
  intro h hnc s
  exact rolling_iff_brute h T9 PS9 (by decide) hnc s

set_option maxRecDepth 8000 in
theorem scenario_output_witness :
    "hello".data ∈ rolling_hash_search strCode T9 PS9 ↔
      "hello".data ∈ brute_force_search T9 PS9 :=
  scenario_output.2 strCode (by unfold no_collisions; decide) "hello".data

/-- Claim C10: all three functions are total; on an empty text the
enumeration ranges are empty, so the fingerprint set is empty, the
rolling-hash result is empty, and brute force keeps exactly the empty
patterns; a `max_len` beyond the text length only adds empty index
ranges and changes nothing. -/
theorem total_boundary_behavior (h : Str → Int) (t : Str) (ps : List Str) (m : Nat) :
    create_substring_hashes h [] m = ∅ ∧
      rolling_hash_search h [] ps = [] ∧
      brute_force_search [] ps = ps.filter (fun s => decide (s = [])) ∧
      (t.length ≤ m → create_substring_hashes h t m = create_substring_hashes h t t.length) := by
  refine ⟨?_, ?_, ?_, ?_⟩
  · unfold create_substring_hashes
    rw [enumeratedSubstrings_nil]
    simp
  · rw [rolling_hash_search_eq_filter]
    unfold create_substring_hashes
    rw [enumeratedSubstrings_nil]
    simp
  · unfold brute_force_search
    refine List.filter_congr ?_
    intro s _
    unfold py_contains
    simp [List.range_succ, eq_comm]
  · intro hm
    ext x
    rw [create_substring_hashes_exact, create_substring_hashes_exact]
    constructor
    · rintro ⟨k, hk1, _, i, hik, hx⟩
      exact ⟨k, hk1, by omega, i, hik, hx⟩
    · rintro ⟨k, hk1, hkt, i, hik, hx⟩
      exact ⟨k, hk1, by omega, i, hik, hx⟩

theorem total_boundary_behavior_witness :
    create_substring_hashes strCode ['a'] 5 = create_substring_hashes strCode ['a'] 1 :=
  (total_boundary_behavior strCode ['a'] [['a']] 5).2.2.2 (by decide)
